import Mathlib

set_option maxHeartbeats 2000000
set_option maxRecDepth 20000

/-!
Shallow embedding of the palette quantization and grid rasterization
pipeline of the Pixel repository (src/services/geminiService.ts).

The pipeline consumes the downsampled `resolution * resolution` RGBA
buffer (the output of the canvas `drawImage` downsampling step); here
that buffer is the input `List RGBA`, in row-major cell order, exactly
as the source iterates it.  All JavaScript number arithmetic on the
relevant ranges is exact, and is embedded over `Nat` / `Int` with the
rounding rules spelled out at each definition.
-/

/-- One RGBA sample of the downsampled pixel buffer (8-bit channels in the
source's `Uint8ClampedArray`). -/
structure RGBA where
  r : Nat
  g : Nat
  b : Nat
  a : Nat
deriving DecidableEq

/-- Working histogram entry (`interface TempColor` in the source). -/
structure TempColor where
  r : Nat
  g : Nat
  b : Nat
  count : Nat
deriving DecidableEq, Inhabited

/-- Final palette entry (`interface PaletteItem` in src/unnamed/part_001). -/
structure PaletteItem where
  id : Nat
  r : Nat
  g : Nat
  b : Nat
  hex : String
  count : Nat
  textColor : String
deriving DecidableEq, Inhabited

/-- JS `x.toString(16)` for a natural number: lowercase hex digits. -/
def natToHexString (x : Nat) : String :=
  String.mk (Nat.toDigits 16 x)

/-- JS `s.padStart(2, "0")`. -/
def padStart2 (s : String) : String :=
  if s.length < 2 then String.mk (List.replicate (2 - s.length) '0') ++ s else s

/-- `rgbToHex` from the source: `"#"` followed by each channel rendered as
hex and padded to at least two digits. -/
def rgbToHex (r g b : Nat) : String :=
  "#" ++ padStart2 (natToHexString r) ++ padStart2 (natToHexString g) ++
    padStart2 (natToHexString b)

/-- `getContrastColor` from the source.  The source computes
`yiq = ((r * 299) + (g * 587) + (b * 114)) / 1000` with real division and
tests `yiq >= 128`; on the integer weighted sums that occur (all below
2^53, and more than 10^-3 away from 128 whenever they differ from 128000)
this is exactly the integer test `128000 <= r*299 + g*587 + b*114`. -/
def getContrastColor (r g b : Nat) : String :=
  if 128000 ≤ r * 299 + g * 587 + b * 114 then "#000000" else "#FFFFFF"

/-- `Math.round(x / 4) * 4` on a nonnegative integer channel: `x / 4` is
exact in binary floating point and `Math.round` rounds half up, so this is
`((x + 2) / 4) * 4` with integer division. -/
def roundMul4 (x : Nat) : Nat :=
  ((x + 2) / 4) * 4

/-- Insert one bucketed color into the histogram.  The source keeps a
`Map` keyed by the string `"r,g,b"` (so keys coincide exactly when the
three rounded channels coincide), increments the count of an existing
entry, and otherwise appends a fresh entry with count 1; `Map` preserves
insertion order, embedded here as an association list. -/
def bumpColor (rR gR bR : Nat) : List TempColor → List TempColor
  | [] => [⟨rR, gR, bR, 1⟩]
  | c :: cs =>
    if c.r = rR ∧ c.g = gR ∧ c.b = bR then
      { c with count := c.count + 1 } :: cs
    else
      c :: bumpColor rR gR bR cs

/-- Body of the histogram loop of `generateStrictPalette`: pixels with
alpha channel `< 128` are skipped (`continue`), every other pixel is
bucketed to multiples of 4 and counted. -/
def histStep (acc : List TempColor) (px : RGBA) : List TempColor :=
  if px.a < 128 then acc
  else bumpColor (roundMul4 px.r) (roundMul4 px.g) (roundMul4 px.b) acc

/-- Step 1 of `generateStrictPalette`: the color histogram of the buffer. -/
def buildHistogram (data : List RGBA) : List TempColor :=
  data.foldl histStep []

/-- `distSq` from the source: squared Euclidean RGB distance between two
working palette entries. -/
def distSq (c1 c2 : TempColor) : Int :=
  ((c1.r : Int) - c2.r) ^ 2 + ((c1.g : Int) - c2.g) ^ 2 + ((c1.b : Int) - c2.b) ^ 2

/-- All index pairs `(i, j)` with `i < j < n`, in the scan order of the
nested `for` loops of the reduction step (`i` ascending, then `j` from
`i + 1` ascending). -/
def pairIndices (n : Nat) : List (Nat × Nat) :=
  (((List.range n).map fun i =>
    ((List.range n).filter fun j => i < j).map fun j => (i, j))).flatten

/-- One comparison of the closest-pair scan.  The source starts from
`minD = Infinity`, `idx1 = idx2 = -1` (embedded as `none`) and adopts a
pair exactly on a strictly smaller distance; its early `break` when a
distance of 0 is found cannot change the selected pair, because every
later pair would need a strictly smaller (hence negative) distance to be
adopted. -/
def closestStep (p : List TempColor) (acc : Int × Option (Nat × Nat)) (ij : Nat × Nat) :
    Int × Option (Nat × Nat) :=
  let d := distSq (p.getD ij.1 default) (p.getD ij.2 default)
  match acc.2 with
  | none => (d, some ij)
  | some _ => if d < acc.1 then (d, some ij) else acc

/-- The pair of indices of the two closest working palette entries found
by the quadratic scan, or `none` when no pair exists. -/
def findClosestPair (p : List TempColor) : Option (Nat × Nat) :=
  ((pairIndices p.length).foldl (closestStep p) (0, none)).2

/-- `Math.round(p / q)` on nonnegative integers: `(2p + q) / (2q)` with
integer division (round half up, matching `Math.round`). -/
def roundDiv (p q : Nat) : Nat :=
  (2 * p + q) / (2 * q)

/-- The in-place update of `c1` in the merge step: each channel becomes
`Math.round((c1.ch * c1.count + c2.ch * c2.count) / total)` and the count
becomes `total = c1.count + c2.count`. -/
def mergedColor (c1 c2 : TempColor) : TempColor :=
  ⟨roundDiv (c1.r * c1.count + c2.r * c2.count) (c1.count + c2.count),
   roundDiv (c1.g * c1.count + c2.g * c2.count) (c1.count + c2.count),
   roundDiv (c1.b * c1.count + c2.b * c2.count) (c1.count + c2.count),
   c1.count + c2.count⟩

/-- One merge of the reduction loop: entry `j` is merged into entry `i`,
then the source moves `palette[palette.length - 1]` into slot `j` and
pops the array. -/
def mergeAt (p : List TempColor) (i j : Nat) : List TempColor :=
  let p' := p.set i (mergedColor (p.getD i default) (p.getD j default))
  (p'.set j (p'.getD (p'.length - 1) default)).dropLast

/-- Step 2 of `generateStrictPalette`: the `while (palette.length >
maxColors)` reduction loop.  Each pass finds the closest pair and merges
it; when no pair exists (`idx1 === -1`) the loop breaks.  Every pass that
merges removes exactly one entry, so the loop runs at most
`palette.length` passes; it is embedded with that bound as structural
fuel, and `reduceLoop_fuel_irrelevant` below proves that any larger fuel
gives the same result (the loop has terminated by then). -/
def reduceLoop (fuel : Nat) (palette : List TempColor) (maxColors : Int) : List TempColor :=
  match fuel with
  | 0 => palette
  | fuel + 1 =>
    if (palette.length : Int) > maxColors then
      match findClosestPair palette with
      | some ij => reduceLoop fuel (mergeAt palette ij.1 ij.2) maxColors
      | none => palette
    else palette

/-- The reduction loop entered with sufficient fuel. -/
def reducePalette (palette : List TempColor) (maxColors : Int) : List TempColor :=
  reduceLoop palette.length palette maxColors

/-- Stable insertion into a list sorted by descending count: embeds the
(stable) JS `sort((a, b) => b.count - a.count)`. -/
def insertByCount (c : TempColor) : List TempColor → List TempColor
  | [] => [c]
  | d :: ds => if d.count ≤ c.count then c :: d :: ds else d :: insertByCount c ds

/-- Stable sort of the reduced histogram by descending count. -/
def sortByCountDesc : List TempColor → List TempColor
  | [] => []
  | c :: cs => insertByCount c (sortByCountDesc cs)

/-- Step 3 of `generateStrictPalette`: assign ids `idx + 1` in sorted
order, compute hex and text color, and reset the count to 0 (it is
recounted during mapping). -/
def toPaletteItemsFrom (idx : Nat) : List TempColor → List PaletteItem
  | [] => []
  | c :: cs =>
    ⟨idx + 1, c.r, c.g, c.b, rgbToHex c.r c.g c.b, 0, getContrastColor c.r c.g c.b⟩ ::
      toPaletteItemsFrom (idx + 1) cs

/-- `generateStrictPalette` from the source (the spec's `buildPalette`). -/
def generateStrictPalette (data : List RGBA) (maxColors : Int) : List PaletteItem :=
  let palette := buildHistogram data
  let reduced :=
    if (palette.length : Int) > maxColors then reducePalette palette maxColors
    else palette
  toPaletteItemsFrom 0 (sortByCountDesc reduced)

/-- Squared Euclidean RGB distance from an (unrounded) cell color to a
palette item, as inlined in `findNearestColorId`. -/
def distToItem (r g b : Nat) (p : PaletteItem) : Int :=
  ((p.r : Int) - r) ^ 2 + ((p.g : Int) - g) ^ 2 + ((p.b : Int) - b) ^ 2

/-- Loop of `findNearestColorId`: `minD` starts at `Infinity` (embedded
as `none`, against which every distance compares smaller) and `id` at 0;
an entry is adopted exactly on a strictly smaller distance. -/
def findNearestGo (r g b : Nat) : List PaletteItem → Option Int → Nat → Nat
  | [], _, id => id
  | p :: ps, minD, id =>
    let d := distToItem r g b p
    match minD with
    | none => findNearestGo r g b ps (some d) p.id
    | some m =>
      if d < m then findNearestGo r g b ps (some d) p.id
      else findNearestGo r g b ps (some m) id

/-- `findNearestColorId` from the source. -/
def findNearestColorId (r g b : Nat) (palette : List PaletteItem) : Nat :=
  findNearestGo r g b palette none 0

/-- Pixel-map part of Pass 1 of `enforcePixelGrid`: each cell with alpha
`> 128` is assigned the nearest palette id, every other cell gets 0. -/
def pixelMapOf (data : List RGBA) (palette : List PaletteItem) : List Nat :=
  data.map fun px =>
    if 128 < px.a then findNearestColorId px.r px.g px.b palette else 0

/-- `palette.find(p => p.id === pid)` followed by `pItem.count++`: the
first entry with the given id (if any) has its count incremented. -/
def bumpCount (pid : Nat) : List PaletteItem → List PaletteItem
  | [] => []
  | p :: ps =>
    if p.id = pid then { p with count := p.count + 1 } :: ps
    else p :: bumpCount pid ps

/-- Count update of one cell of Pass 1 of `enforcePixelGrid`. -/
def recountStep (pal : List PaletteItem) (px : RGBA) : List PaletteItem :=
  if 128 < px.a then bumpCount (findNearestColorId px.r px.g px.b pal) pal else pal

/-- Count part of Pass 1 of `enforcePixelGrid`.  The source computes the
pixel map and the counts in one loop over the cells; `findNearestColorId`
never reads counts (proved below as `findNearestColorId_bumpCount`), so
the two outputs are embedded as separate traversals of the same buffer. -/
def recountPalette (data : List RGBA) (palette : List PaletteItem) : List PaletteItem :=
  data.foldl recountStep palette

/-- Stable insertion into a list sorted by ascending id: embeds the JS
`sort((a, b) => a.id - b.id)`. -/
def insertById (p : PaletteItem) : List PaletteItem → List PaletteItem
  | [] => [p]
  | q :: qs => if p.id ≤ q.id then p :: q :: qs else q :: insertById p qs

/-- Stable sort by ascending id. -/
def sortByIdAsc : List PaletteItem → List PaletteItem
  | [] => []
  | p :: ps => insertById p (sortByIdAsc ps)

/-- `usedPalette` from `enforcePixelGrid`:
`palette.filter(p => p.count > 0).sort((a, b) => a.id - b.id)` applied to
the palette after the counting pass. -/
def usedPalette (data : List RGBA) (palette : List PaletteItem) : List PaletteItem :=
  sortByIdAsc ((recountPalette data palette).filter fun p => 0 < p.count)

/-- The `palette` field of the `GenerationResult` of `enforcePixelGrid`,
as a function of the downsampled RGBA buffer and the color budget. -/
def enforcePixelGridPalette (data : List RGBA) (maxColors : Int) : List PaletteItem :=
  usedPalette data (generateStrictPalette data maxColors)

/-- Total count mass of a working histogram. -/
def histCountSum (l : List TempColor) : Nat :=
  (l.map TempColor.count).sum

/-- Total count mass of a palette. -/
def paletteCountSum (l : List PaletteItem) : Nat :=
  (l.map PaletteItem.count).sum

/-! ### Histogram lemmas -/

theorem bumpColor_ne_nil (rR gR bR : Nat) (l : List TempColor) :
    bumpColor rR gR bR l ≠ [] := by
  cases l with
  | nil => simp [bumpColor]
  | cons c cs =>
    simp only [bumpColor]
    split <;> simp

theorem histCountSum_cons (c : TempColor) (l : List TempColor) :
    histCountSum (c :: l) = c.count + histCountSum l := by
  simp [histCountSum]

theorem bumpColor_sum (rR gR bR : Nat) (l : List TempColor) :
    histCountSum (bumpColor rR gR bR l) = histCountSum l + 1 := by
  induction l with
  | nil => simp [bumpColor, histCountSum]
  | cons c cs ih =>
    simp only [bumpColor]
    split
    · simp only [histCountSum_cons]
      omega
    · simp only [histCountSum_cons, ih]
      omega

theorem foldl_histStep_sum (data : List RGBA) :
    ∀ acc : List TempColor,
      histCountSum (data.foldl histStep acc) =
        histCountSum acc + data.countP (fun px => 128 ≤ px.a) := by
  induction data with
  | nil => intro acc; simp
  | cons px rest ih =>
    intro acc
    simp only [List.foldl_cons, List.countP_cons, histStep, decide_eq_true_eq]
    by_cases h : px.a < 128
    · rw [if_pos h, ih, if_neg (show ¬ 128 ≤ px.a by omega)]
      omega
    · rw [if_neg h, ih, bumpColor_sum, if_pos (show 128 ≤ px.a by omega)]
      omega

theorem foldl_histStep_filter (data : List RGBA) :
    ∀ acc : List TempColor,
      data.foldl histStep acc = ((data.filter fun px => 128 ≤ px.a).foldl histStep acc) := by
  induction data with
  | nil => intro acc; rfl
  | cons px rest ih =>
    intro acc
    simp only [List.foldl_cons, List.filter_cons, decide_eq_true_eq]
    by_cases h : px.a < 128
    · rw [if_neg (show ¬ 128 ≤ px.a by omega)]
      have hstep : histStep acc px = acc := by
        simp only [histStep, if_pos h]
      rw [hstep]
      exact ih acc
    · rw [if_pos (show 128 ≤ px.a by omega)]
      simp only [List.foldl_cons]
      exact ih (histStep acc px)

theorem foldl_histStep_ne_nil (data : List RGBA) :
    ∀ acc : List TempColor, acc ≠ [] → data.foldl histStep acc ≠ [] := by
  induction data with
  | nil => exact fun _ h => h
  | cons px rest ih =>
    intro acc hacc
    simp only [List.foldl_cons]
    apply ih
    rw [histStep]
    split
    · exact hacc
    · exact bumpColor_ne_nil _ _ _ _

theorem foldl_histStep_ne_nil_of_mem (data : List RGBA) :
    ∀ (acc : List TempColor) (px : RGBA), px ∈ data → 128 ≤ px.a →
      data.foldl histStep acc ≠ [] := by
  induction data with
  | nil => intro _ _ h; exact absurd h (List.not_mem_nil _)
  | cons q rest ih =>
    intro acc px hmem ha
    rcases List.mem_cons.mp hmem with heq | htail
    · subst heq
      simp only [List.foldl_cons]
      apply foldl_histStep_ne_nil
      rw [histStep, if_neg (by omega)]
      exact bumpColor_ne_nil _ _ _ _
    · exact ih _ px htail ha

theorem buildHistogram_ne_nil (data : List RGBA) (px : RGBA) (hmem : px ∈ data)
    (ha : 128 ≤ px.a) : buildHistogram data ≠ [] :=
  foldl_histStep_ne_nil_of_mem data [] px hmem ha

/-! ### Closest-pair scan lemmas -/

theorem mem_pairIndices (n : Nat) (ij : Nat × Nat) :
    ij ∈ pairIndices n ↔ ij.1 < ij.2 ∧ ij.2 < n := by
  constructor
  · intro h
    rw [pairIndices, List.mem_flatten] at h
    obtain ⟨l, hl, hij⟩ := h
    rw [List.mem_map] at hl
    obtain ⟨i', _, rfl⟩ := hl
    rw [List.mem_map] at hij
    obtain ⟨j', hj', heq⟩ := hij
    rw [List.mem_filter, List.mem_range] at hj'
    obtain ⟨hj'n, hij'⟩ := hj'
    simp only [decide_eq_true_eq] at hij'
    subst heq
    exact ⟨hij', hj'n⟩
  · intro ⟨h1, h2⟩
    rw [pairIndices, List.mem_flatten]
    refine ⟨((List.range n).filter fun j => ij.1 < j).map fun j => (ij.1, j), ?_, ?_⟩
    · rw [List.mem_map]
      exact ⟨ij.1, List.mem_range.mpr (by omega), rfl⟩
    · rw [List.mem_map]
      refine ⟨ij.2, ?_, rfl⟩
      rw [List.mem_filter, List.mem_range]
      refine ⟨h2, ?_⟩
      simp only [decide_eq_true_eq]
      exact h1

theorem foldl_closestStep_valid (p : List TempColor) (l : List (Nat × Nat)) :
    ∀ acc : Int × Option (Nat × Nat),
      (∀ ij ∈ l, ij.1 < ij.2 ∧ ij.2 < p.length) →
      (∀ ij, acc.2 = some ij → ij.1 < ij.2 ∧ ij.2 < p.length) →
      ∀ ij, (l.foldl (closestStep p) acc).2 = some ij → ij.1 < ij.2 ∧ ij.2 < p.length := by
  induction l with
  | nil => intro acc _ hacc; exact hacc
  | cons hd tl ih =>
    intro acc hl hacc
    simp only [List.foldl_cons]
    apply ih
    · intro ij hij
      exact hl ij (List.mem_cons_of_mem _ hij)
    · intro ij hij
      rcases hacc2 : acc.2 with _ | ij0
      · simp only [closestStep, hacc2, Option.some.injEq] at hij
        subst hij
        exact hl hd (List.mem_cons_self _ _)
      · simp only [closestStep, hacc2] at hij
        split at hij
        · simp only [Option.some.injEq] at hij
          subst hij
          exact hl hd (List.mem_cons_self _ _)
        · exact hacc ij hij

theorem foldl_closestStep_isSome (p : List TempColor) (l : List (Nat × Nat)) :
    ∀ acc : Int × Option (Nat × Nat), (acc.2.isSome ∨ l ≠ []) →
      ((l.foldl (closestStep p) acc).2).isSome := by
  induction l with
  | nil =>
    intro acc h
    rcases h with h | h
    · exact h
    · exact absurd rfl h
  | cons hd tl ih =>
    intro acc _
    simp only [List.foldl_cons]
    apply ih
    left
    rcases hacc2 : acc.2 with _ | ij0
    · simp only [closestStep, hacc2]
      simp
    · simp only [closestStep, hacc2]
      split
      · simp
      · rw [hacc2]
        simp

theorem findClosestPair_some_valid (p : List TempColor) (ij : Nat × Nat)
    (h : findClosestPair p = some ij) : ij.1 < ij.2 ∧ ij.2 < p.length :=
  foldl_closestStep_valid p (pairIndices p.length) (0, none)
    (fun ij' hij' => (mem_pairIndices _ _).mp hij') (by simp) ij h

theorem findClosestPair_isSome (p : List TempColor) (h2 : 2 ≤ p.length) :
    (findClosestPair p).isSome := by
  have hmem : ((0 : Nat), (1 : Nat)) ∈ pairIndices p.length :=
    (mem_pairIndices _ _).mpr (by simp; omega)
  exact foldl_closestStep_isSome p _ _ (Or.inr (List.ne_nil_of_mem hmem))

theorem findClosestPair_none_length (p : List TempColor) (h : findClosestPair p = none) :
    p.length ≤ 1 := by
  by_contra hcon
  have hs := findClosestPair_isSome p (by omega)
  rw [h] at hs
  simp at hs

theorem findClosestPair_eq_none (p : List TempColor) (h : p.length ≤ 1) :
    findClosestPair p = none := by
  rcases p with _ | ⟨a, _ | ⟨b, t⟩⟩
  · rfl
  · rfl
  · simp at h

/-! ### Reduction loop lemmas -/

theorem mergeAt_length (p : List TempColor) (i j : Nat) :
    (mergeAt p i j).length = p.length - 1 := by
  simp [mergeAt]

theorem mergeAt_ne_nil (p : List TempColor) (i j : Nat) (h : 2 ≤ p.length) :
    mergeAt p i j ≠ [] := by
  have hl := mergeAt_length p i j
  intro hcon
  rw [hcon] at hl
  simp at hl
  omega

theorem reduceLoop_nil (fuel : Nat) (m : Int) : reduceLoop fuel [] m = [] := by
  cases fuel with
  | zero => rfl
  | succ f =>
    rw [reduceLoop]
    split
    · rw [findClosestPair_eq_none [] (by simp)]
    · rfl

theorem reduceLoop_fuel_irrelevant :
    ∀ (f1 f2 : Nat) (p : List TempColor) (m : Int),
      p.length ≤ f1 → p.length ≤ f2 → reduceLoop f1 p m = reduceLoop f2 p m := by
  intro f1
  induction f1 with
  | zero =>
    intro f2 p m h1 _
    have hp : p = [] := List.eq_nil_of_length_eq_zero (by omega)
    subst hp
    rw [reduceLoop_nil, reduceLoop_nil]
  | succ f1 ih =>
    intro f2 p m h1 h2
    cases f2 with
    | zero =>
      have hp : p = [] := List.eq_nil_of_length_eq_zero (by omega)
      subst hp
      rw [reduceLoop_nil, reduceLoop_nil]
    | succ f2 =>
      rw [reduceLoop, reduceLoop]
      split
      · rcases hfp : findClosestPair p with _ | ij
        · rfl
        · have hvalid := findClosestPair_some_valid p ij hfp
          have hlen := mergeAt_length p ij.1 ij.2
          exact ih f2 (mergeAt p ij.1 ij.2) m (by omega) (by omega)
      · rfl

theorem reducePalette_fuel (fuel : Nat) (p : List TempColor) (m : Int)
    (h : p.length ≤ fuel) : reduceLoop fuel p m = reducePalette p m :=
  reduceLoop_fuel_irrelevant fuel p.length p m h le_rfl

theorem reduceLoop_ne_nil :
    ∀ (fuel : Nat) (p : List TempColor) (m : Int), p ≠ [] → reduceLoop fuel p m ≠ [] := by
  intro fuel
  induction fuel with
  | zero => intro p m h; exact h
  | succ f ih =>
    intro p m h
    rw [reduceLoop]
    split
    · rcases hfp : findClosestPair p with _ | ij
      · exact h
      · have hvalid := findClosestPair_some_valid p ij hfp
        exact ih _ m (mergeAt_ne_nil p ij.1 ij.2 (by omega))
    · exact h

theorem reducePalette_ne_nil (p : List TempColor) (m : Int) (h : p ≠ []) :
    reducePalette p m ≠ [] :=
  reduceLoop_ne_nil p.length p m h

theorem reduceLoop_length_le :
    ∀ (fuel : Nat) (p : List TempColor) (m : Int), p.length ≤ fuel → p ≠ [] →
      ((reduceLoop fuel p m).length : Int) ≤ max m 1 := by
  intro fuel
  induction fuel with
  | zero =>
    intro p m h hne
    exact absurd (List.eq_nil_of_length_eq_zero (by omega)) hne
  | succ f ih =>
    intro p m h hne
    rw [reduceLoop]
    split
    · rcases hfp : findClosestPair p with _ | ij
      · have hle := findClosestPair_none_length p hfp
        have hmax : (1 : Int) ≤ max m 1 := le_max_right m 1
        have hpos : 0 < p.length := List.length_pos.mpr hne
        have : p.length = 1 := by omega
        rw [this]
        omega
      · have hvalid := findClosestPair_some_valid p ij hfp
        have hlen := mergeAt_length p ij.1 ij.2
        exact ih (mergeAt p ij.1 ij.2) m (by omega)
          (mergeAt_ne_nil p ij.1 ij.2 (by omega))
    · rename_i hle
      have hmax : m ≤ max m 1 := le_max_left m 1
      omega

theorem reducePalette_length_le (p : List TempColor) (m : Int) (h : p ≠ []) :
    ((reducePalette p m).length : Int) ≤ max m 1 :=
  reduceLoop_length_le p.length p m le_rfl h

/-! ### Channel-range invariants -/

/-- Channel bounds that hold of every working palette entry: bucketing a
`Uint8ClampedArray` channel can reach 256 (at inputs 254 and 255), and
count-weighted rounded averages stay within `[0, 256]`. -/
def chOk (c : TempColor) : Prop :=
  c.r ≤ 256 ∧ c.g ≤ 256 ∧ c.b ≤ 256

/-- Bounds on a raw histogram entry: channels are multiples of 4 in
`[0, 256]`. -/
def histEntryOk (c : TempColor) : Prop :=
  (c.r ≤ 256 ∧ 4 ∣ c.r) ∧ (c.g ≤ 256 ∧ 4 ∣ c.g) ∧ (c.b ≤ 256 ∧ 4 ∣ c.b)

theorem roundMul4_ok (x : Nat) (h : x ≤ 255) : roundMul4 x ≤ 256 ∧ 4 ∣ roundMul4 x := by
  constructor
  · rw [roundMul4]
    omega
  · rw [roundMul4]
    exact dvd_mul_left 4 ((x + 2) / 4)

theorem bumpColor_histEntryOk (rR gR bR : Nat)
    (hr : rR ≤ 256 ∧ 4 ∣ rR) (hg : gR ≤ 256 ∧ 4 ∣ gR) (hb : bR ≤ 256 ∧ 4 ∣ bR) :
    ∀ l : List TempColor, (∀ c ∈ l, histEntryOk c) →
      ∀ c ∈ bumpColor rR gR bR l, histEntryOk c := by
  intro l
  induction l with
  | nil =>
    intro _ c hc
    simp only [bumpColor, List.mem_singleton] at hc
    subst hc
    exact ⟨hr, hg, hb⟩
  | cons c0 cs ih =>
    intro hl c hc
    simp only [bumpColor] at hc
    split at hc
    · rcases List.mem_cons.mp hc with heq | htail
      · subst heq
        exact hl c0 (List.mem_cons_self _ _)
      · exact hl c (List.mem_cons_of_mem _ htail)
    · rcases List.mem_cons.mp hc with heq | htail
      · subst heq
        exact hl c (List.mem_cons_self _ _)
      · exact ih (fun d hd => hl d (List.mem_cons_of_mem _ hd)) c htail

theorem buildHistogram_histEntryOk (data : List RGBA)
    (hdata : ∀ px ∈ data, px.r ≤ 255 ∧ px.g ≤ 255 ∧ px.b ≤ 255) :
    ∀ c ∈ buildHistogram data, histEntryOk c := by
  rw [buildHistogram]
  have hgen : ∀ (l : List RGBA), (∀ px ∈ l, px.r ≤ 255 ∧ px.g ≤ 255 ∧ px.b ≤ 255) →
      ∀ acc : List TempColor, (∀ c ∈ acc, histEntryOk c) →
        ∀ c ∈ l.foldl histStep acc, histEntryOk c := by
    intro l
    induction l with
    | nil => intro _ acc hacc c hc; exact hacc c hc
    | cons px rest ih =>
      intro hl acc hacc c hc
      simp only [List.foldl_cons] at hc
      refine ih (fun q hq => hl q (List.mem_cons_of_mem _ hq)) _ ?_ c hc
      intro d hd
      rw [histStep] at hd
      split at hd
      · exact hacc d hd
      · have hpx := hl px (List.mem_cons_self _ _)
        exact bumpColor_histEntryOk _ _ _
          (roundMul4_ok _ hpx.1) (roundMul4_ok _ hpx.2.1) (roundMul4_ok _ hpx.2.2)
          acc hacc d hd
  exact hgen data hdata [] (by simp)

theorem chOk_default : chOk default := by
  refine ⟨?_, ?_, ?_⟩ <;> decide

theorem roundDiv_le_256 (p q : Nat) (h : p ≤ 256 * q) : roundDiv p q ≤ 256 := by
  rw [roundDiv]
  rcases Nat.eq_zero_or_pos q with hq | hq
  · subst hq
    simp
  · have h2q : 0 < 2 * q := by omega
    have hlt : (2 * p + q) / (2 * q) < 257 := by
      rw [Nat.div_lt_iff_lt_mul h2q]
      omega
    omega

theorem getD_mem_or_eq (l : List TempColor) (n : Nat) (d : TempColor) :
    l.getD n d ∈ l ∨ l.getD n d = d := by
  by_cases h : n < l.length
  · left
    rw [List.getD_eq_getElem l d h]
    exact List.getElem_mem h
  · right
    exact List.getD_eq_default l d (by omega)

theorem mergedColor_chOk (c1 c2 : TempColor) (h1 : chOk c1) (h2 : chOk c2) :
    chOk (mergedColor c1 c2) := by
  have hr1 := Nat.mul_le_mul_right c1.count h1.1
  have hr2 := Nat.mul_le_mul_right c2.count h2.1
  have hg1 := Nat.mul_le_mul_right c1.count h1.2.1
  have hg2 := Nat.mul_le_mul_right c2.count h2.2.1
  have hb1 := Nat.mul_le_mul_right c1.count h1.2.2
  have hb2 := Nat.mul_le_mul_right c2.count h2.2.2
  refine ⟨?_, ?_, ?_⟩ <;> (apply roundDiv_le_256; omega)

theorem mergeAt_chOk (p : List TempColor) (i j : Nat) (hP : ∀ c ∈ p, chOk c) :
    ∀ c ∈ mergeAt p i j, chOk c := by
  have hc1 : chOk (p.getD i default) := by
    rcases getD_mem_or_eq p i default with h | h
    · exact hP _ h
    · rw [h]; exact chOk_default
  have hc2 : chOk (p.getD j default) := by
    rcases getD_mem_or_eq p j default with h | h
    · exact hP _ h
    · rw [h]; exact chOk_default
  have hmerged := mergedColor_chOk _ _ hc1 hc2
  have hpset : ∀ d, d ∈ p.set i (mergedColor (p.getD i default) (p.getD j default)) →
      chOk d := by
    intro d hd
    rcases List.mem_or_eq_of_mem_set hd with hmem | heq
    · exact hP d hmem
    · rw [heq]
      exact hmerged
  intro c hc
  simp only [mergeAt] at hc
  have hc' := (List.dropLast_sublist _).subset hc
  rcases List.mem_or_eq_of_mem_set hc' with hmem | heq
  · exact hpset _ hmem
  · rw [heq]
    rcases getD_mem_or_eq (p.set i (mergedColor (p.getD i default) (p.getD j default)))
        ((p.set i (mergedColor (p.getD i default) (p.getD j default))).length - 1)
        default with h | h
    · exact hpset _ h
    · rw [h]
      exact chOk_default

theorem reduceLoop_chOk :
    ∀ (fuel : Nat) (p : List TempColor) (m : Int), (∀ c ∈ p, chOk c) →
      ∀ c ∈ reduceLoop fuel p m, chOk c := by
  intro fuel
  induction fuel with
  | zero => intro p m hP; exact hP
  | succ f ih =>
    intro p m hP
    rw [reduceLoop]
    split
    · rcases hfp : findClosestPair p with _ | ij
      · exact hP
      · exact ih _ m (mergeAt_chOk p ij.1 ij.2 hP)
    · exact hP

/-! ### Sorting and materialization lemmas -/

theorem mem_insertByCount (x c : TempColor) :
    ∀ l : List TempColor, (c ∈ insertByCount x l ↔ c = x ∨ c ∈ l) := by
  intro l
  induction l with
  | nil => simp [insertByCount]
  | cons d ds ih =>
    rw [insertByCount]
    split
    · simp
    · simp only [List.mem_cons, ih]
      tauto

theorem mem_sortByCountDesc (c : TempColor) :
    ∀ l : List TempColor, (c ∈ sortByCountDesc l ↔ c ∈ l) := by
  intro l
  induction l with
  | nil => simp [sortByCountDesc]
  | cons d ds ih =>
    rw [sortByCountDesc, mem_insertByCount]
    simp only [List.mem_cons, ih]

theorem length_insertByCount (x : TempColor) :
    ∀ l : List TempColor, (insertByCount x l).length = l.length + 1 := by
  intro l
  induction l with
  | nil => rfl
  | cons d ds ih =>
    rw [insertByCount]
    split
    · simp
    · simp [ih]

theorem length_sortByCountDesc :
    ∀ l : List TempColor, (sortByCountDesc l).length = l.length := by
  intro l
  induction l with
  | nil => rfl
  | cons d ds ih =>
    rw [sortByCountDesc, length_insertByCount, ih]
    rfl

theorem length_toPaletteItemsFrom (idx : Nat) :
    ∀ l : List TempColor, (toPaletteItemsFrom idx l).length = l.length := by
  intro l
  induction l generalizing idx with
  | nil => rfl
  | cons c cs ih =>
    rw [toPaletteItemsFrom]
    simp [ih]

theorem toPaletteItemsFrom_mem (idx : Nat) :
    ∀ (l : List TempColor) (p : PaletteItem), p ∈ toPaletteItemsFrom idx l →
      ∃ c ∈ l, c.r = p.r ∧ c.g = p.g ∧ c.b = p.b ∧ p.count = 0 ∧
        p.hex = rgbToHex c.r c.g c.b ∧ p.textColor = getContrastColor c.r c.g c.b ∧
        idx < p.id := by
  intro l
  induction l generalizing idx with
  | nil => intro p hp; simp [toPaletteItemsFrom] at hp
  | cons c cs ih =>
    intro p hp
    rw [toPaletteItemsFrom] at hp
    rcases List.mem_cons.mp hp with heq | htail
    · subst heq
      exact ⟨c, List.mem_cons_self _ _, rfl, rfl, rfl, rfl, rfl, rfl, Nat.lt_succ_self idx⟩
    · obtain ⟨c', hc', h⟩ := ih (idx + 1) p htail
      have hid : idx + 1 < p.id := h.2.2.2.2.2.2
      exact ⟨c', List.mem_cons_of_mem _ hc', h.1, h.2.1, h.2.2.1, h.2.2.2.1,
        h.2.2.2.2.1, h.2.2.2.2.2.1, by omega⟩

theorem toPaletteItemsFrom_pairwise (idx : Nat) :
    ∀ l : List TempColor,
      List.Pairwise (fun a b : PaletteItem => a.id < b.id) (toPaletteItemsFrom idx l) := by
  intro l
  induction l generalizing idx with
  | nil => exact List.Pairwise.nil
  | cons c cs ih =>
    rw [toPaletteItemsFrom]
    refine List.pairwise_cons.mpr ⟨?_, ih (idx + 1)⟩
    intro p hp
    obtain ⟨_, _, h⟩ := toPaletteItemsFrom_mem (idx + 1) cs p hp
    exact h.2.2.2.2.2.2

/-! ### Nearest-color search lemmas -/

theorem findNearestGo_no_improve (r g b : Nat) :
    ∀ (ps : List PaletteItem) (m : Int) (id0 : Nat),
      (∀ p ∈ ps, ¬ distToItem r g b p < m) →
      findNearestGo r g b ps (some m) id0 = id0 := by
  intro ps
  induction ps with
  | nil => intro m id0 _; rfl
  | cons p ps ih =>
    intro m id0 h
    simp only [findNearestGo]
    rw [if_neg (h p (List.mem_cons_self _ _))]
    exact ih m id0 (fun q hq => h q (List.mem_cons_of_mem _ hq))

theorem findNearestGo_improve (r g b : Nat) :
    ∀ (ps : List PaletteItem) (m : Int) (id0 : Nat),
      (∃ p ∈ ps, distToItem r g b p < m) →
      ∃ k, k < ps.length ∧
        findNearestGo r g b ps (some m) id0 = (ps.getD k default).id ∧
        distToItem r g b (ps.getD k default) < m ∧
        (∀ l, l < ps.length →
          distToItem r g b (ps.getD k default) ≤ distToItem r g b (ps.getD l default)) ∧
        (∀ l, l < k →
          distToItem r g b (ps.getD k default) < distToItem r g b (ps.getD l default)) := by
  intro ps
  induction ps with
  | nil =>
    intro m id0 h
    obtain ⟨p, hp, _⟩ := h
    exact absurd hp (List.not_mem_nil p)
  | cons p ps ih =>
    intro m id0 h
    simp only [findNearestGo]
    by_cases hd : distToItem r g b p < m
    · rw [if_pos hd]
      by_cases hex : ∃ q ∈ ps, distToItem r g b q < distToItem r g b p
      · obtain ⟨k', hk', heq, hlt, hmin, hstrict⟩ := ih (distToItem r g b p) p.id hex
        refine ⟨k' + 1, by simp only [List.length_cons]; omega, ?_, ?_, ?_, ?_⟩
        · rw [List.getD_cons_succ]
          exact heq
        · rw [List.getD_cons_succ]
          exact lt_trans hlt hd
        · intro l hl
          rw [List.getD_cons_succ]
          match l with
          | 0 =>
            rw [List.getD_cons_zero]
            exact le_of_lt hlt
          | l' + 1 =>
            rw [List.getD_cons_succ]
            exact hmin l' (by simp only [List.length_cons] at hl; omega)
        · intro l hl
          rw [List.getD_cons_succ]
          match l with
          | 0 =>
            rw [List.getD_cons_zero]
            exact hlt
          | l' + 1 =>
            rw [List.getD_cons_succ]
            exact hstrict l' (by omega)
      · push_neg at hex
        rw [findNearestGo_no_improve r g b ps (distToItem r g b p) p.id
          (fun q hq => not_lt.mpr (hex q hq))]
        refine ⟨0, by simp, ?_, ?_, ?_, ?_⟩
        · rw [List.getD_cons_zero]
        · rw [List.getD_cons_zero]
          exact hd
        · intro l hl
          rw [List.getD_cons_zero]
          match l with
          | 0 =>
            rw [List.getD_cons_zero]
          | l' + 1 =>
            rw [List.getD_cons_succ]
            have hl' : l' < ps.length := by simp only [List.length_cons] at hl; omega
            refine hex _ ?_
            rw [List.getD_eq_getElem _ _ hl']
            exact List.getElem_mem hl'
        · intro l hl
          omega
    · rw [if_neg hd]
      have hex : ∃ q ∈ ps, distToItem r g b q < m := by
        obtain ⟨q, hq, hlt⟩ := h
        rcases List.mem_cons.mp hq with heq | hq'
        · rw [heq] at hlt
          exact absurd hlt hd
        · exact ⟨q, hq', hlt⟩
      obtain ⟨k', hk', heq, hlt, hmin, hstrict⟩ := ih m id0 hex
      have hple : m ≤ distToItem r g b p := not_lt.mp hd
      refine ⟨k' + 1, by simp only [List.length_cons]; omega, ?_, ?_, ?_, ?_⟩
      · rw [List.getD_cons_succ]
        exact heq
      · rw [List.getD_cons_succ]
        exact hlt
      · intro l hl
        rw [List.getD_cons_succ]
        match l with
        | 0 =>
          rw [List.getD_cons_zero]
          exact le_of_lt (lt_of_lt_of_le hlt hple)
        | l' + 1 =>
          rw [List.getD_cons_succ]
          exact hmin l' (by simp only [List.length_cons] at hl; omega)
      · intro l hl
        rw [List.getD_cons_succ]
        match l with
        | 0 =>
          rw [List.getD_cons_zero]
          exact lt_of_lt_of_le hlt hple
        | l' + 1 =>
          rw [List.getD_cons_succ]
          exact hstrict l' (by omega)

theorem findNearestColorId_spec (r g b : Nat) (pal : List PaletteItem) (hne : pal ≠ []) :
    ∃ k, k < pal.length ∧
      findNearestColorId r g b pal = (pal.getD k default).id ∧
      (∀ l, l < pal.length →
        distToItem r g b (pal.getD k default) ≤ distToItem r g b (pal.getD l default)) ∧
      (∀ l, l < k →
        distToItem r g b (pal.getD k default) < distToItem r g b (pal.getD l default)) := by
  rcases pal with _ | ⟨p, ps⟩
  · exact absurd rfl hne
  rw [findNearestColorId]
  simp only [findNearestGo]
  by_cases hex : ∃ q ∈ ps, distToItem r g b q < distToItem r g b p
  · obtain ⟨k', hk', heq, hlt, hmin, hstrict⟩ :=
      findNearestGo_improve r g b ps (distToItem r g b p) p.id hex
    refine ⟨k' + 1, by simp only [List.length_cons]; omega, ?_, ?_, ?_⟩
    · rw [List.getD_cons_succ]
      exact heq
    · intro l hl
      rw [List.getD_cons_succ]
      match l with
      | 0 =>
        rw [List.getD_cons_zero]
        exact le_of_lt hlt
      | l' + 1 =>
        rw [List.getD_cons_succ]
        exact hmin l' (by simp only [List.length_cons] at hl; omega)
    · intro l hl
      rw [List.getD_cons_succ]
      match l with
      | 0 =>
        rw [List.getD_cons_zero]
        exact hlt
      | l' + 1 =>
        rw [List.getD_cons_succ]
        exact hstrict l' (by omega)
  · push_neg at hex
    rw [findNearestGo_no_improve r g b ps (distToItem r g b p) p.id
      (fun q hq => not_lt.mpr (hex q hq))]
    refine ⟨0, by simp, ?_, ?_, ?_⟩
    · rw [List.getD_cons_zero]
    · intro l hl
      rw [List.getD_cons_zero]
      match l with
      | 0 =>
        rw [List.getD_cons_zero]
      | l' + 1 =>
        rw [List.getD_cons_succ]
        have hl' : l' < ps.length := by simp only [List.length_cons] at hl; omega
        refine hex _ ?_
        rw [List.getD_eq_getElem _ _ hl']
        exact List.getElem_mem hl'
    · intro l hl
      omega

theorem findNearestGo_mem (r g b : Nat) :
    ∀ (ps : List PaletteItem) (o : Option Int) (id0 : Nat),
      findNearestGo r g b ps o id0 = id0 ∨
        findNearestGo r g b ps o id0 ∈ ps.map PaletteItem.id := by
  intro ps
  induction ps with
  | nil => intro o id0; left; rfl
  | cons p ps ih =>
    intro o id0
    rcases o with _ | m
    · simp only [findNearestGo, List.map_cons]
      rcases ih (some (distToItem r g b p)) p.id with h | h
      · right
        rw [h]
        exact List.mem_cons_self _ _
      · right
        exact List.mem_cons_of_mem _ h
    · simp only [findNearestGo, List.map_cons]
      by_cases hd : distToItem r g b p < m
      · rw [if_pos hd]
        rcases ih (some (distToItem r g b p)) p.id with h | h
        · right
          rw [h]
          exact List.mem_cons_self _ _
        · right
          exact List.mem_cons_of_mem _ h
      · rw [if_neg hd]
        rcases ih (some m) id0 with h | h
        · left
          exact h
        · right
          exact List.mem_cons_of_mem _ h

theorem findNearestColorId_mem (r g b : Nat) (pal : List PaletteItem) (hne : pal ≠ []) :
    findNearestColorId r g b pal ∈ pal.map PaletteItem.id := by
  rcases pal with _ | ⟨p, ps⟩
  · exact absurd rfl hne
  rw [findNearestColorId]
  simp only [findNearestGo, List.map_cons]
  rcases findNearestGo_mem r g b ps (some (distToItem r g b p)) p.id with h | h
  · rw [h]
    exact List.mem_cons_self _ _
  · exact List.mem_cons_of_mem _ h

theorem findNearestGo_bumpCount (r g b pid : Nat) :
    ∀ (ps : List PaletteItem) (o : Option Int) (id0 : Nat),
      findNearestGo r g b (bumpCount pid ps) o id0 = findNearestGo r g b ps o id0 := by
  intro ps
  induction ps with
  | nil => intro o id0; rfl
  | cons p ps ih =>
    intro o id0
    rw [bumpCount]
    by_cases h : p.id = pid
    · rw [if_pos h]
      rfl
    · rw [if_neg h]
      rcases o with _ | m
      · simp only [findNearestGo]
        exact ih _ _
      · simp only [findNearestGo]
        split
        · exact ih _ _
        · exact ih _ _

/-- `findNearestColorId` never reads palette counts, so the in-place
count increments of Pass 1 do not affect later classifications. -/
theorem findNearestColorId_bumpCount (r g b pid : Nat) (pal : List PaletteItem) :
    findNearestColorId r g b (bumpCount pid pal) = findNearestColorId r g b pal := by
  rw [findNearestColorId, findNearestColorId, findNearestGo_bumpCount]

/-! ### Counting-pass lemmas -/

theorem paletteCountSum_cons (p : PaletteItem) (l : List PaletteItem) :
    paletteCountSum (p :: l) = p.count + paletteCountSum l := by
  simp [paletteCountSum]

theorem paletteCountSum_eq_zero (l : List PaletteItem) (h : ∀ p ∈ l, p.count = 0) :
    paletteCountSum l = 0 := by
  rw [paletteCountSum]
  apply List.sum_eq_zero
  intro x hx
  obtain ⟨p, hp, rfl⟩ := List.mem_map.mp hx
  exact h p hp

theorem bumpCount_length (pid : Nat) :
    ∀ pal : List PaletteItem, (bumpCount pid pal).length = pal.length := by
  intro pal
  induction pal with
  | nil => rfl
  | cons p ps ih =>
    rw [bumpCount]
    split
    · simp
    · simp [ih]

theorem bumpCount_map_id (pid : Nat) :
    ∀ pal : List PaletteItem,
      (bumpCount pid pal).map PaletteItem.id = pal.map PaletteItem.id := by
  intro pal
  induction pal with
  | nil => rfl
  | cons p ps ih =>
    rw [bumpCount]
    split
    · simp
    · simp [ih]

theorem bumpCount_sum (pid : Nat) :
    ∀ pal : List PaletteItem, pid ∈ pal.map PaletteItem.id →
      paletteCountSum (bumpCount pid pal) = paletteCountSum pal + 1 := by
  intro pal
  induction pal with
  | nil => intro h; simp at h
  | cons p ps ih =>
    intro h
    rw [bumpCount]
    by_cases hid : p.id = pid
    · rw [if_pos hid, paletteCountSum_cons, paletteCountSum_cons]
      have : ({ p with count := p.count + 1 } : PaletteItem).count = p.count + 1 := rfl
      omega
    · rw [if_neg hid, paletteCountSum_cons, paletteCountSum_cons]
      have h' : pid ∈ p.id :: ps.map PaletteItem.id := by
        rw [← List.map_cons]
        exact h
      have hmem : pid ∈ ps.map PaletteItem.id := by
        rcases List.mem_cons.mp h' with heq | htail
        · exact absurd heq.symm hid
        · exact htail
      rw [ih hmem]
      omega

theorem bumpCount_sublist_mem (pid : Nat) :
    ∀ (pal : List PaletteItem) (q : PaletteItem), q ∈ bumpCount pid pal →
      q ∈ pal ∨ ∃ p ∈ pal, q = { p with count := p.count + 1 } := by
  intro pal
  induction pal with
  | nil => intro q hq; simp [bumpCount] at hq
  | cons p ps ih =>
    intro q hq
    rw [bumpCount] at hq
    split at hq
    · rcases List.mem_cons.mp hq with heq | htail
      · right
        exact ⟨p, List.mem_cons_self _ _, heq⟩
      · left
        exact List.mem_cons_of_mem _ htail
    · rcases List.mem_cons.mp hq with heq | htail
      · left
        rw [heq]
        exact List.mem_cons_self _ _
      · rcases ih q htail with hmem | ⟨p', hp', heq⟩
        · left
          exact List.mem_cons_of_mem _ hmem
        · right
          exact ⟨p', List.mem_cons_of_mem _ hp', heq⟩

theorem recountStep_length (pal : List PaletteItem) (px : RGBA) :
    (recountStep pal px).length = pal.length := by
  rw [recountStep]
  split
  · exact bumpCount_length _ _
  · rfl

theorem recountStep_map_id (pal : List PaletteItem) (px : RGBA) :
    (recountStep pal px).map PaletteItem.id = pal.map PaletteItem.id := by
  rw [recountStep]
  split
  · exact bumpCount_map_id _ _
  · rfl

theorem recountStep_sum (pal : List PaletteItem) (px : RGBA) (hne : pal ≠ []) :
    paletteCountSum (recountStep pal px) =
      paletteCountSum pal + (if 128 < px.a then 1 else 0) := by
  rw [recountStep]
  split
  · rw [bumpCount_sum _ pal (findNearestColorId_mem _ _ _ pal hne)]
  · rfl

theorem recountPalette_length (data : List RGBA) :
    ∀ pal : List PaletteItem, (recountPalette data pal).length = pal.length := by
  induction data with
  | nil => intro pal; rfl
  | cons px rest ih =>
    intro pal
    simp only [recountPalette, List.foldl_cons] at *
    rw [ih (recountStep pal px), recountStep_length]

theorem recountPalette_map_id (data : List RGBA) :
    ∀ pal : List PaletteItem,
      (recountPalette data pal).map PaletteItem.id = pal.map PaletteItem.id := by
  induction data with
  | nil => intro pal; rfl
  | cons px rest ih =>
    intro pal
    simp only [recountPalette, List.foldl_cons] at *
    rw [ih (recountStep pal px), recountStep_map_id]

theorem recountPalette_sum (data : List RGBA) :
    ∀ pal : List PaletteItem, pal ≠ [] →
      paletteCountSum (recountPalette data pal) =
        paletteCountSum pal + data.countP (fun px => 128 < px.a) := by
  induction data with
  | nil => intro pal _; simp [recountPalette]
  | cons px rest ih =>
    intro pal hne
    simp only [recountPalette, List.foldl_cons, List.countP_cons, decide_eq_true_eq] at *
    have hne' : recountStep pal px ≠ [] := by
      intro hcon
      have := recountStep_length pal px
      rw [hcon] at this
      simp at this
      exact hne (List.length_eq_zero.mp this.symm)
    rw [ih (recountStep pal px) hne', recountStep_sum pal px hne]
    split
    · omega
    · omega

theorem recountPalette_transparent (data : List RGBA)
    (h : ∀ px ∈ data, ¬ 128 < px.a) :
    ∀ pal : List PaletteItem, recountPalette data pal = pal := by
  induction data with
  | nil => intro pal; rfl
  | cons px rest ih =>
    intro pal
    simp only [recountPalette, List.foldl_cons]
    have hstep : recountStep pal px = pal := by
      rw [recountStep, if_neg (h px (List.mem_cons_self _ _))]
    rw [hstep]
    exact ih (fun q hq => h q (List.mem_cons_of_mem _ hq)) pal

theorem recountPalette_mem (data : List RGBA) :
    ∀ (pal : List PaletteItem) (q : PaletteItem), q ∈ recountPalette data pal →
      ∃ p ∈ pal, q.id = p.id ∧ q.r = p.r ∧ q.g = p.g ∧ q.b = p.b ∧
        q.hex = p.hex ∧ q.textColor = p.textColor := by
  induction data with
  | nil =>
    intro pal q hq
    exact ⟨q, hq, rfl, rfl, rfl, rfl, rfl, rfl⟩
  | cons px rest ih =>
    intro pal q hq
    simp only [recountPalette, List.foldl_cons] at hq
    obtain ⟨p1, hp1, h1⟩ := ih (recountStep pal px) q hq
    have hp1' : ∃ p ∈ pal, p1.id = p.id ∧ p1.r = p.r ∧ p1.g = p.g ∧ p1.b = p.b ∧
        p1.hex = p.hex ∧ p1.textColor = p.textColor := by
      rw [recountStep] at hp1
      split at hp1
      · rcases bumpCount_sublist_mem _ pal p1 hp1 with hmem | ⟨p0, hp0, heq⟩
        · exact ⟨p1, hmem, rfl, rfl, rfl, rfl, rfl, rfl⟩
        · exact ⟨p0, hp0, by rw [heq], by rw [heq], by rw [heq], by rw [heq],
            by rw [heq], by rw [heq]⟩
      · exact ⟨p1, hp1, rfl, rfl, rfl, rfl, rfl, rfl⟩
    obtain ⟨p0, hp0, h0⟩ := hp1'
    exact ⟨p0, hp0, h1.1.trans h0.1, h1.2.1.trans h0.2.1, h1.2.2.1.trans h0.2.2.1,
      h1.2.2.2.1.trans h0.2.2.2.1, h1.2.2.2.2.1.trans h0.2.2.2.2.1,
      h1.2.2.2.2.2.trans h0.2.2.2.2.2⟩

/-! ### Final sort and filter lemmas -/

theorem mem_insertById (x c : PaletteItem) :
    ∀ l : List PaletteItem, (c ∈ insertById x l ↔ c = x ∨ c ∈ l) := by
  intro l
  induction l with
  | nil => simp [insertById]
  | cons q qs ih =>
    rw [insertById]
    split
    · simp
    · simp only [List.mem_cons, ih]
      tauto

theorem mem_sortByIdAsc (c : PaletteItem) :
    ∀ l : List PaletteItem, (c ∈ sortByIdAsc l ↔ c ∈ l) := by
  intro l
  induction l with
  | nil => simp [sortByIdAsc]
  | cons q qs ih =>
    rw [sortByIdAsc, mem_insertById]
    simp only [List.mem_cons, ih]

theorem insertById_sum (x : PaletteItem) :
    ∀ l : List PaletteItem, paletteCountSum (insertById x l) = x.count + paletteCountSum l := by
  intro l
  induction l with
  | nil => rfl
  | cons q qs ih =>
    rw [insertById]
    split
    · rfl
    · rw [paletteCountSum_cons, ih, paletteCountSum_cons]
      omega

theorem sortByIdAsc_sum :
    ∀ l : List PaletteItem, paletteCountSum (sortByIdAsc l) = paletteCountSum l := by
  intro l
  induction l with
  | nil => rfl
  | cons q qs ih =>
    rw [sortByIdAsc, insertById_sum, ih, paletteCountSum_cons]

theorem insertById_length (x : PaletteItem) :
    ∀ l : List PaletteItem, (insertById x l).length = l.length + 1 := by
  intro l
  induction l with
  | nil => rfl
  | cons q qs ih =>
    rw [insertById]
    split
    · simp
    · simp [ih]

theorem sortByIdAsc_length :
    ∀ l : List PaletteItem, (sortByIdAsc l).length = l.length := by
  intro l
  induction l with
  | nil => rfl
  | cons q qs ih =>
    rw [sortByIdAsc, insertById_length, ih]
    rfl

theorem sortByIdAsc_eq_self :
    ∀ l : List PaletteItem,
      List.Pairwise (fun a b : PaletteItem => a.id ≤ b.id) l → sortByIdAsc l = l := by
  intro l
  induction l with
  | nil => intro _; rfl
  | cons q qs ih =>
    intro h
    rw [sortByIdAsc, ih (List.pairwise_cons.mp h).2]
    cases qs with
    | nil => rfl
    | cons q2 qs2 =>
      rw [insertById, if_pos ((List.pairwise_cons.mp h).1 q2 (List.mem_cons_self _ _))]

theorem paletteCountSum_filter_pos :
    ∀ l : List PaletteItem,
      paletteCountSum (l.filter fun p => 0 < p.count) = paletteCountSum l := by
  intro l
  induction l with
  | nil => rfl
  | cons p ps ih =>
    rw [List.filter_cons]
    by_cases h : 0 < p.count
    · rw [if_pos (by simpa using h), paletteCountSum_cons, paletteCountSum_cons, ih]
    · rw [if_neg (by simpa using h), paletteCountSum_cons, ih]
      omega

/-! ### Pipeline assembly lemmas -/

theorem generateStrictPalette_count_zero (data : List RGBA) (m : Int) :
    ∀ p ∈ generateStrictPalette data m, p.count = 0 := by
  intro p hp
  simp only [generateStrictPalette] at hp
  obtain ⟨c, _, h⟩ := toPaletteItemsFrom_mem 0 _ p hp
  exact h.2.2.2.1

theorem generateStrictPalette_pairwise (data : List RGBA) (m : Int) :
    List.Pairwise (fun a b : PaletteItem => a.id < b.id) (generateStrictPalette data m) := by
  simp only [generateStrictPalette]
  exact toPaletteItemsFrom_pairwise 0 _

theorem generateStrictPalette_id_pos (data : List RGBA) (m : Int) :
    ∀ p ∈ generateStrictPalette data m, 1 ≤ p.id := by
  intro p hp
  simp only [generateStrictPalette] at hp
  obtain ⟨c, _, h⟩ := toPaletteItemsFrom_mem 0 _ p hp
  have := h.2.2.2.2.2.2
  omega

theorem generateStrictPalette_ne_nil (data : List RGBA) (m : Int) (px : RGBA)
    (hmem : px ∈ data) (ha : 128 ≤ px.a) : generateStrictPalette data m ≠ [] := by
  simp only [generateStrictPalette]
  have hh : buildHistogram data ≠ [] := buildHistogram_ne_nil data px hmem ha
  have hred : (if ((buildHistogram data).length : Int) > m
      then reducePalette (buildHistogram data) m else buildHistogram data) ≠ [] := by
    split
    · exact reducePalette_ne_nil _ _ hh
    · exact hh
  intro hcon
  have hl := congrArg List.length hcon
  rw [length_toPaletteItemsFrom, length_sortByCountDesc] at hl
  simp only [List.length_nil] at hl
  exact hred (List.length_eq_zero.mp hl)

theorem generateStrictPalette_length_le (data : List RGBA) (m : Int) (hm : 1 ≤ m) :
    ((generateStrictPalette data m).length : Int) ≤ m := by
  simp only [generateStrictPalette]
  rw [length_toPaletteItemsFrom, length_sortByCountDesc]
  split
  · by_cases hh : buildHistogram data = []
    · rw [hh]
      have hnil : reducePalette [] m = [] := rfl
      rw [hnil]
      simp only [List.length_nil, Nat.cast_zero]
      omega
    · have hb := reducePalette_length_le (buildHistogram data) m hh
      have hmax : max m 1 = m := max_eq_left hm
      omega
  · rename_i hle
    omega

/-! ### Evaluation lemmas for the two-color 64x64 scenario

The 4096-cell buffer of the spec's merge scenario is too large for direct
kernel evaluation, so the histogram and counting passes over
`List.replicate` are computed by induction. -/

theorem foldl_histStep_replicate_first (px : RGBA) (h : ¬ px.a < 128)
    (R G B : Nat) (hR : roundMul4 px.r = R) (hG : roundMul4 px.g = G)
    (hB : roundMul4 px.b = B) :
    ∀ (n k : Nat) (cs : List TempColor),
      (List.replicate n px).foldl histStep (⟨R, G, B, k⟩ :: cs) = ⟨R, G, B, k + n⟩ :: cs := by
  intro n
  induction n with
  | zero => intro k cs; rfl
  | succ n ih =>
    intro k cs
    rw [List.replicate_succ, List.foldl_cons]
    have hstep : histStep (⟨R, G, B, k⟩ :: cs) px = ⟨R, G, B, k + 1⟩ :: cs := by
      rw [histStep, if_neg h, hR, hG, hB, bumpColor, if_pos ⟨rfl, rfl, rfl⟩]
    rw [hstep, ih (k + 1) cs]
    have : k + 1 + n = k + (n + 1) := by omega
    rw [this]

theorem foldl_histStep_replicate_second (px : RGBA) (h : ¬ px.a < 128)
    (R G B : Nat) (hR : roundMul4 px.r = R) (hG : roundMul4 px.g = G)
    (hB : roundMul4 px.b = B) (c1 : TempColor)
    (hne : ¬ (c1.r = R ∧ c1.g = G ∧ c1.b = B)) :
    ∀ (n k : Nat),
      (List.replicate n px).foldl histStep [c1, ⟨R, G, B, k⟩] = [c1, ⟨R, G, B, k + n⟩] := by
  intro n
  induction n with
  | zero => intro k; rfl
  | succ n ih =>
    intro k
    rw [List.replicate_succ, List.foldl_cons]
    have hstep : histStep [c1, ⟨R, G, B, k⟩] px = [c1, ⟨R, G, B, k + 1⟩] := by
      rw [histStep, if_neg h, hR, hG, hB, bumpColor, if_neg hne, bumpColor,
        if_pos ⟨rfl, rfl, rfl⟩]
    rw [hstep, ih (k + 1)]
    have : k + 1 + n = k + (n + 1) := by omega
    rw [this]

/-- The downsampled 64x64 buffer of the spec's merge scenario: 75% pure
red, 25% pure blue, all opaque. -/
def c5buffer : List RGBA :=
  List.replicate 3072 ⟨255, 0, 0, 255⟩ ++ List.replicate 1024 ⟨0, 0, 255, 255⟩

theorem c5_histogram :
    buildHistogram c5buffer = [⟨256, 0, 0, 3072⟩, ⟨0, 0, 256, 1024⟩] := by
  rw [c5buffer, buildHistogram, List.foldl_append]
  have h1 : (List.replicate 3072 (⟨255, 0, 0, 255⟩ : RGBA)).foldl histStep [] =
      [⟨256, 0, 0, 3072⟩] := by
    rw [show (3072 : Nat) = 3071 + 1 from by norm_num, List.replicate_succ, List.foldl_cons]
    rw [show histStep [] ⟨255, 0, 0, 255⟩ = [⟨256, 0, 0, 1⟩] from rfl]
    rw [foldl_histStep_replicate_first ⟨255, 0, 0, 255⟩ (by decide) 256 0 0 rfl rfl rfl
      3071 1 []]
  have h2 : (List.replicate 1024 (⟨0, 0, 255, 255⟩ : RGBA)).foldl histStep
      [⟨256, 0, 0, 3072⟩] = [⟨256, 0, 0, 3072⟩, ⟨0, 0, 256, 1024⟩] := by
    rw [show (1024 : Nat) = 1023 + 1 from by norm_num, List.replicate_succ, List.foldl_cons]
    rw [show histStep [⟨256, 0, 0, 3072⟩] ⟨0, 0, 255, 255⟩ =
      [⟨256, 0, 0, 3072⟩, ⟨0, 0, 256, 1⟩] from rfl]
    rw [foldl_histStep_replicate_second ⟨0, 0, 255, 255⟩ (by decide) 0 0 256 rfl rfl rfl
      ⟨256, 0, 0, 3072⟩ (by decide) 1023 1]
  rw [h1, h2]

theorem c5_draft : generateStrictPalette c5buffer 1 =
    [⟨1, 192, 0, 64, "#c00040", 0, "#FFFFFF"⟩] := by
  simp only [generateStrictPalette, c5_histogram]
  decide

theorem foldl_recountStep_replicate_single (px : RGBA) (h : 128 < px.a) :
    ∀ (n : Nat) (item : PaletteItem),
      (List.replicate n px).foldl recountStep [item] =
        [{ item with count := item.count + n }] := by
  intro n
  induction n with
  | zero => intro item; rfl
  | succ n ih =>
    intro item
    rw [List.replicate_succ, List.foldl_cons]
    have hfind : findNearestColorId px.r px.g px.b [item] = item.id := by
      rw [findNearestColorId]
      simp only [findNearestGo]
    have hstep : recountStep [item] px = [{ item with count := item.count + 1 }] := by
      rw [recountStep, if_pos h, hfind, bumpCount, if_pos rfl]
    rw [hstep, ih { item with count := item.count + 1 }]
    refine congrArg (fun c => [c]) ?_
    have : item.count + 1 + n = item.count + (n + 1) := by omega
    simp only [this]

theorem c5_result : enforcePixelGridPalette c5buffer 1 =
    [⟨1, 192, 0, 64, "#c00040", 4096, "#FFFFFF"⟩] := by
  rw [enforcePixelGridPalette, c5_draft, usedPalette, recountPalette, c5buffer,
    List.foldl_append]
  rw [foldl_recountStep_replicate_single ⟨255, 0, 0, 255⟩ (by decide) 3072
    ⟨1, 192, 0, 64, "#c00040", 0, "#FFFFFF"⟩]
  rw [foldl_recountStep_replicate_single ⟨0, 0, 255, 255⟩ (by decide) 1024
    ⟨1, 192, 0, 64, "#c00040", 0 + 3072, "#FFFFFF"⟩]
  decide

/-! ### Claim theorems -/

/-- Claim C1: count conservation — for every downsampled buffer and every
color budget, the counts of the final returned palette sum to the number
of grid cells whose alpha is strictly greater than 128. -/
theorem c1_count_conservation (data : List RGBA) (m : Int) :
    paletteCountSum (enforcePixelGridPalette data m) =
      data.countP (fun px => 128 < px.a) := by
  rw [enforcePixelGridPalette, usedPalette, sortByIdAsc_sum, paletteCountSum_filter_pos]
  by_cases hop : ∃ px ∈ data, 128 < px.a
  · obtain ⟨px, hmem, ha⟩ := hop
    have hne : generateStrictPalette data m ≠ [] :=
      generateStrictPalette_ne_nil data m px hmem (by omega)
    rw [recountPalette_sum data _ hne,
      paletteCountSum_eq_zero _ (generateStrictPalette_count_zero data m)]
    omega
  · push_neg at hop
    rw [recountPalette_transparent data (fun q hq => by have := hop q hq; omega) _,
      paletteCountSum_eq_zero _ (generateStrictPalette_count_zero data m)]
    symm
    rw [List.countP_eq_zero]
    intro q hq
    simp only [decide_eq_true_eq]
    have := hop q hq
    omega

/-- Claim C2 counterexample: with `maxColors = 0` and one opaque pixel the
final palette has one entry, so `len(result.palette) ≤ maxColors` fails
and the degenerate input does not give an empty palette. -/
theorem c2_counterexample :
    (enforcePixelGridPalette [⟨10, 10, 10, 255⟩] 0).length = 1 ∧
      ¬ ((enforcePixelGridPalette [⟨10, 10, 10, 255⟩] 0).length : Int) ≤ 0 := by
  decide

/-- Claim C2, amended: the palette size bound holds for every
`maxColors ≥ 1`, and a buffer with no cell of alpha above 128 yields an
empty final palette (the original claim also asserted an empty palette
for `maxColors ≤ 0`, which the code violates when an opaque cell exists). -/
theorem c2_palette_size_bound (data : List RGBA) (m : Int) :
    (1 ≤ m → ((enforcePixelGridPalette data m).length : Int) ≤ m) ∧
    ((∀ px ∈ data, px.a ≤ 128) → enforcePixelGridPalette data m = []) := by
  constructor
  · intro hm
    rw [enforcePixelGridPalette, usedPalette, sortByIdAsc_length]
    have h1 := List.length_filter_le (fun p => decide (0 < p.count))
      (recountPalette data (generateStrictPalette data m))
    have h2 := recountPalette_length data (generateStrictPalette data m)
    have h3 := generateStrictPalette_length_le data m hm
    omega
  · intro hop
    rw [enforcePixelGridPalette, usedPalette,
      recountPalette_transparent data (fun q hq => by have := hop q hq; omega) _]
    have hfil : (generateStrictPalette data m).filter (fun p => 0 < p.count) = [] := by
      rw [List.filter_eq_nil_iff]
      intro p hp
      simp only [decide_eq_true_eq]
      have := generateStrictPalette_count_zero data m p hp
      omega
    rw [hfil]
    rfl

theorem c2_palette_size_bound_witness :
    ((enforcePixelGridPalette [⟨1, 2, 3, 255⟩] 2).length : Int) ≤ 2 ∧
      enforcePixelGridPalette [⟨5, 5, 5, 100⟩] 3 = [] :=
  ⟨(c2_palette_size_bound [⟨1, 2, 3, 255⟩] 2).1 (by decide),
   (c2_palette_size_bound [⟨5, 5, 5, 100⟩] 3).2 (by decide)⟩

/-- Claim C3 counterexample: a pixel with alpha exactly 128 contributes
to the histogram (the skip test is `alpha < 128`), contradicting the
claim that pixels with alpha equal to 128 are excluded entirely. -/
theorem c3_counterexample :
    buildHistogram [⟨10, 10, 10, 128⟩] = [⟨12, 12, 12, 1⟩] ∧
      histCountSum (buildHistogram [⟨10, 10, 10, 128⟩]) ≠ 0 := by
  decide

/-- Claim C3, amended: a pixel contributes to the histogram if and only
if its alpha is at least 128 (the source skips on `alpha < 128`):
dropping the pixels below 128 does not change the histogram, and the
histogram's total count equals the number of pixels with alpha ≥ 128. -/
theorem c3_histogram_threshold (data : List RGBA) :
    buildHistogram data = buildHistogram (data.filter fun px => 128 ≤ px.a) ∧
      histCountSum (buildHistogram data) = data.countP (fun px => 128 ≤ px.a) := by
  constructor
  · rw [buildHistogram, buildHistogram]
    exact foldl_histStep_filter data []
  · rw [buildHistogram, foldl_histStep_sum data []]
    simp [histCountSum]

/-- Claim C4 counterexample: channel 255 buckets to
`round(255/4)*4 = 256`, which is not a uint8, and its hex rendering is
three digits per channel, not a 6-digit string. -/
theorem c4_counterexample :
    (generateStrictPalette [⟨255, 255, 255, 255⟩] 8).map (fun p => (p.r, p.g, p.b)) =
        [(256, 256, 256)] ∧
      (generateStrictPalette [⟨255, 255, 255, 255⟩] 8).map (fun p => p.hex) =
        ["#100100100"] ∧
      ¬ (∀ p ∈ generateStrictPalette [⟨255, 255, 255, 255⟩] 8, p.r ≤ 255) := by
  decide

/-- Claim C4, amended: for 8-bit inputs every histogram entry channel is
a multiple of 4 in `[0, 256]` (with 256 attained at inputs 254 and 255,
so the uint8 and 6-digit-hex parts of the claim fail), and every emitted
palette item has channels in `[0, 256]`. -/
theorem c4_channel_range (data : List RGBA) (m : Int)
    (h : ∀ px ∈ data, px.r ≤ 255 ∧ px.g ≤ 255 ∧ px.b ≤ 255) :
    (∀ c ∈ buildHistogram data,
      (c.r ≤ 256 ∧ 4 ∣ c.r) ∧ (c.g ≤ 256 ∧ 4 ∣ c.g) ∧ (c.b ≤ 256 ∧ 4 ∣ c.b)) ∧
    (∀ p ∈ generateStrictPalette data m, p.r ≤ 256 ∧ p.g ≤ 256 ∧ p.b ≤ 256) := by
  have hhist := buildHistogram_histEntryOk data h
  refine ⟨hhist, ?_⟩
  intro p hp
  simp only [generateStrictPalette] at hp
  obtain ⟨c, hc, hcomp⟩ := toPaletteItemsFrom_mem 0 _ p hp
  have hc' : c ∈ (if ((buildHistogram data).length : Int) > m
      then reducePalette (buildHistogram data) m else buildHistogram data) :=
    (mem_sortByCountDesc c _).mp hc
  have hhist' : ∀ d ∈ buildHistogram data, chOk d := fun d hd =>
    ⟨(hhist d hd).1.1, (hhist d hd).2.1.1, (hhist d hd).2.2.1⟩
  have hchOk : chOk c := by
    revert hc'
    split
    · intro hc'
      rw [reducePalette] at hc'
      exact reduceLoop_chOk _ _ m hhist' c hc'
    · intro hc'
      exact hhist' c hc'
  rw [← hcomp.1, ← hcomp.2.1, ← hcomp.2.2.1]
  exact hchOk

theorem c4_channel_range_witness :
    (∀ px ∈ ([⟨255, 255, 255, 255⟩] : List RGBA),
      px.r ≤ 255 ∧ px.g ≤ 255 ∧ px.b ≤ 255) ∧
    ((∀ c ∈ buildHistogram [⟨255, 255, 255, 255⟩],
      (c.r ≤ 256 ∧ 4 ∣ c.r) ∧ (c.g ≤ 256 ∧ 4 ∣ c.g) ∧ (c.b ≤ 256 ∧ 4 ∣ c.b)) ∧
    (∀ p ∈ generateStrictPalette [⟨255, 255, 255, 255⟩] 8,
      p.r ≤ 256 ∧ p.g ≤ 256 ∧ p.b ≤ 256)) :=
  ⟨by decide, c4_channel_range [⟨255, 255, 255, 255⟩] 8 (by decide)⟩

/-- Claim C5 counterexample: on the 75% red / 25% blue 64x64 buffer with
`maxColors = 1` the single merged entry has `r = 192`, not the claimed
`r = 191 = round(255*3072/4096)`, because pure red buckets to 256 before
merging. -/
theorem c5_counterexample :
    (enforcePixelGridPalette c5buffer 1).map (fun p => p.r) = [192] ∧
      (enforcePixelGridPalette c5buffer 1).map (fun p => p.r) ≠ [191] := by
  rw [c5_result]
  decide

/-- Claim C5, amended: on the 75% red / 25% blue 64x64 buffer with
`maxColors = 1` the final palette is exactly one entry with id 1, the
count-weighted rounded average color `(192, 0, 64)` of the bucketed
colors `(256,0,0)` and `(0,0,256)` weighted 3072:1024, and count 4096
after rasterization. -/
theorem c5_two_color_merge :
    (enforcePixelGridPalette c5buffer 1).map (fun p => (p.id, p.r, p.g, p.b, p.count)) =
      [(1, 192, 0, 64, 4096)] := by
  rw [c5_result]
  decide

/-- Claim C6 counterexample: the uniform color (10,10,10) buckets to
`round(10/4)*4 = 12` (Math.round rounds 2.5 up to 3), not to the claimed
8. -/
theorem c6_counterexample :
    (generateStrictPalette (List.replicate 100 ⟨10, 10, 10, 255⟩) 8).map (fun p => p.r) =
        [12] ∧
      (generateStrictPalette (List.replicate 100 ⟨10, 10, 10, 255⟩) 8).map (fun p => p.r) ≠
        [8] := by
  decide

/-- Claim C6, amended: for an opaque 10x10 buffer of uniform (10,10,10)
and `maxColors = 8`, buildPalette returns exactly one entry with
`r = g = b = 12` (10 bucketed to the nearest multiple of 4, half up) and
textColor `"#FFFFFF"`. -/
theorem c6_single_color_bucketing :
    (generateStrictPalette (List.replicate 100 ⟨10, 10, 10, 255⟩) 8).map
        (fun p => (p.r, p.g, p.b, p.textColor)) = [(12, 12, 12, "#FFFFFF")] := by
  decide

/-- Claim C7: classification rule — a cell with alpha at most 128 is
assigned index 0; an opaque cell is assigned the id of the draft palette
entry at the first index attaining the minimum squared RGB distance to
the cell's unrounded color (so exact ties go to the earlier entry, which
has the lower id since draft ids are strictly ascending). -/
theorem c7_classification_rule (data : List RGBA) (m : Int) (i : Nat)
    (hi : i < data.length) :
    ((data.getD i ⟨0, 0, 0, 0⟩).a ≤ 128 →
      (pixelMapOf data (generateStrictPalette data m)).getD i 0 = 0) ∧
    (128 < (data.getD i ⟨0, 0, 0, 0⟩).a →
      List.Pairwise (fun a b : PaletteItem => a.id < b.id) (generateStrictPalette data m) ∧
      ∃ k, k < (generateStrictPalette data m).length ∧
        (pixelMapOf data (generateStrictPalette data m)).getD i 0 =
          ((generateStrictPalette data m).getD k default).id ∧
        (∀ l, l < (generateStrictPalette data m).length →
          distToItem (data.getD i ⟨0, 0, 0, 0⟩).r (data.getD i ⟨0, 0, 0, 0⟩).g
              (data.getD i ⟨0, 0, 0, 0⟩).b
              ((generateStrictPalette data m).getD k default) ≤
            distToItem (data.getD i ⟨0, 0, 0, 0⟩).r (data.getD i ⟨0, 0, 0, 0⟩).g
              (data.getD i ⟨0, 0, 0, 0⟩).b
              ((generateStrictPalette data m).getD l default)) ∧
        (∀ l, l < k →
          distToItem (data.getD i ⟨0, 0, 0, 0⟩).r (data.getD i ⟨0, 0, 0, 0⟩).g
              (data.getD i ⟨0, 0, 0, 0⟩).b
              ((generateStrictPalette data m).getD k default) <
            distToItem (data.getD i ⟨0, 0, 0, 0⟩).r (data.getD i ⟨0, 0, 0, 0⟩).g
              (data.getD i ⟨0, 0, 0, 0⟩).b
              ((generateStrictPalette data m).getD l default))) := by
  have hmap : (pixelMapOf data (generateStrictPalette data m)).getD i 0 =
      (if 128 < (data.getD i ⟨0, 0, 0, 0⟩).a then
        findNearestColorId (data.getD i ⟨0, 0, 0, 0⟩).r (data.getD i ⟨0, 0, 0, 0⟩).g
          (data.getD i ⟨0, 0, 0, 0⟩).b (generateStrictPalette data m)
      else 0) := by
    rw [pixelMapOf, List.getD_eq_getElem _ _ (by rw [List.length_map]; exact hi),
      List.getElem_map, ← List.getD_eq_getElem data ⟨0, 0, 0, 0⟩ hi]
  constructor
  · intro ha
    rw [hmap, if_neg (by omega)]
  · intro ha
    refine ⟨generateStrictPalette_pairwise data m, ?_⟩
    have hne : generateStrictPalette data m ≠ [] := by
      have hmem : data.getD i ⟨0, 0, 0, 0⟩ ∈ data := by
        rw [List.getD_eq_getElem _ _ hi]
        exact List.getElem_mem hi
      exact generateStrictPalette_ne_nil data m _ hmem (by omega)
    obtain ⟨k, hk, heq, hmin, hstrict⟩ := findNearestColorId_spec
      (data.getD i ⟨0, 0, 0, 0⟩).r (data.getD i ⟨0, 0, 0, 0⟩).g
      (data.getD i ⟨0, 0, 0, 0⟩).b (generateStrictPalette data m) hne
    refine ⟨k, hk, ?_, hmin, hstrict⟩
    rw [hmap, if_pos ha, heq]

theorem c7_classification_rule_witness :
    List.Pairwise (fun a b : PaletteItem => a.id < b.id)
        (generateStrictPalette [⟨10, 10, 10, 255⟩] 8) ∧
      ∃ k, k < (generateStrictPalette [⟨10, 10, 10, 255⟩] 8).length ∧
        (pixelMapOf [⟨10, 10, 10, 255⟩]
            (generateStrictPalette [⟨10, 10, 10, 255⟩] 8)).getD 0 0 =
          ((generateStrictPalette [⟨10, 10, 10, 255⟩] 8).getD k default).id ∧
        (∀ l, l < (generateStrictPalette [⟨10, 10, 10, 255⟩] 8).length →
          distToItem (([⟨10, 10, 10, 255⟩] : List RGBA).getD 0 ⟨0, 0, 0, 0⟩).r
              (([⟨10, 10, 10, 255⟩] : List RGBA).getD 0 ⟨0, 0, 0, 0⟩).g
              (([⟨10, 10, 10, 255⟩] : List RGBA).getD 0 ⟨0, 0, 0, 0⟩).b
              ((generateStrictPalette [⟨10, 10, 10, 255⟩] 8).getD k default) ≤
            distToItem (([⟨10, 10, 10, 255⟩] : List RGBA).getD 0 ⟨0, 0, 0, 0⟩).r
              (([⟨10, 10, 10, 255⟩] : List RGBA).getD 0 ⟨0, 0, 0, 0⟩).g
              (([⟨10, 10, 10, 255⟩] : List RGBA).getD 0 ⟨0, 0, 0, 0⟩).b
              ((generateStrictPalette [⟨10, 10, 10, 255⟩] 8).getD l default)) ∧
        (∀ l, l < k →
          distToItem (([⟨10, 10, 10, 255⟩] : List RGBA).getD 0 ⟨0, 0, 0, 0⟩).r
              (([⟨10, 10, 10, 255⟩] : List RGBA).getD 0 ⟨0, 0, 0, 0⟩).g
              (([⟨10, 10, 10, 255⟩] : List RGBA).getD 0 ⟨0, 0, 0, 0⟩).b
              ((generateStrictPalette [⟨10, 10, 10, 255⟩] 8).getD k default) <
            distToItem (([⟨10, 10, 10, 255⟩] : List RGBA).getD 0 ⟨0, 0, 0, 0⟩).r
              (([⟨10, 10, 10, 255⟩] : List RGBA).getD 0 ⟨0, 0, 0, 0⟩).g
              (([⟨10, 10, 10, 255⟩] : List RGBA).getD 0 ⟨0, 0, 0, 0⟩).b
              ((generateStrictPalette [⟨10, 10, 10, 255⟩] 8).getD l default)) :=
  (c7_classification_rule [⟨10, 10, 10, 255⟩] 8 0 (by decide)).2 (by decide)

/-- Claim C8: in every returned result the palette ids are unique
positive integers in strictly ascending order, every retained entry has
positive count, and entries are taken unchanged (ids not renumbered)
from the counted draft palette. -/
theorem c8_final_palette_ids (data : List RGBA) (m : Int) :
    List.Pairwise (fun a b : PaletteItem => a.id < b.id)
        (enforcePixelGridPalette data m) ∧
    (∀ p ∈ enforcePixelGridPalette data m, 0 < p.count ∧ 1 ≤ p.id) ∧
    (∀ p ∈ enforcePixelGridPalette data m,
      p ∈ recountPalette data (generateStrictPalette data m)) := by
  have hpair_rec : List.Pairwise (fun a b : PaletteItem => a.id < b.id)
      (recountPalette data (generateStrictPalette data m)) := by
    have h1 := generateStrictPalette_pairwise data m
    have h1' : List.Pairwise (· < ·)
        ((generateStrictPalette data m).map PaletteItem.id) := List.pairwise_map.mpr h1
    rw [← recountPalette_map_id data (generateStrictPalette data m)] at h1'
    exact List.pairwise_map.mp h1'
  have hpair_fil : List.Pairwise (fun a b : PaletteItem => a.id < b.id)
      ((recountPalette data (generateStrictPalette data m)).filter
        (fun p => 0 < p.count)) :=
    List.Pairwise.sublist (List.filter_sublist _) hpair_rec
  have hkey : enforcePixelGridPalette data m =
      (recountPalette data (generateStrictPalette data m)).filter
        (fun p => 0 < p.count) := by
    rw [enforcePixelGridPalette, usedPalette]
    exact sortByIdAsc_eq_self _ (hpair_fil.imp fun h => le_of_lt h)
  refine ⟨?_, ?_, ?_⟩
  · rw [hkey]
    exact hpair_fil
  · intro p hp
    rw [hkey] at hp
    have hmemfil := List.mem_filter.mp hp
    constructor
    · simpa using hmemfil.2
    · obtain ⟨p0, hp0, hid, _⟩ := recountPalette_mem data _ p hmemfil.1
      have := generateStrictPalette_id_pos data m p0 hp0
      omega
  · intro p hp
    rw [hkey] at hp
    exact (List.mem_filter.mp hp).1

theorem c8_final_palette_ids_witness :
    0 < (⟨1, 12, 12, 12, "#0c0c0c", 1, "#FFFFFF"⟩ : PaletteItem).count ∧
      1 ≤ (⟨1, 12, 12, 12, "#0c0c0c", 1, "#FFFFFF"⟩ : PaletteItem).id :=
  (c8_final_palette_ids [⟨10, 10, 10, 255⟩] 0).2.1
    ⟨1, 12, 12, 12, "#0c0c0c", 1, "#FFFFFF"⟩ (by decide)

/-- Claim C9: contrast correctness — every palette item emitted by the
quantizer carries black text exactly when the luminance
`(299 r + 587 g + 114 b) / 1000` of its own color is at least 128, and
white text otherwise. -/
theorem c9_contrast_correctness (data : List RGBA) (m : Int) (p : PaletteItem)
    (hp : p ∈ generateStrictPalette data m) :
    p.textColor = if 128 ≤ (299 * p.r + 587 * p.g + 114 * p.b) / 1000
      then "#000000" else "#FFFFFF" := by
  simp only [generateStrictPalette] at hp
  obtain ⟨c, _, h⟩ := toPaletteItemsFrom_mem 0 _ p hp
  rw [h.2.2.2.2.2.1, h.1, h.2.1, h.2.2.1, getContrastColor]
  by_cases hc : 128000 ≤ p.r * 299 + p.g * 587 + p.b * 114
  · rw [if_pos hc, if_pos ((Nat.le_div_iff_mul_le (by norm_num)).mpr (by omega))]
  · rw [if_neg hc, if_neg (fun hcon =>
      hc (by have := (Nat.le_div_iff_mul_le (by norm_num)).mp hcon; omega))]

theorem c9_contrast_correctness_witness :
    (⟨1, 12, 12, 12, "#0c0c0c", 0, "#FFFFFF"⟩ : PaletteItem) ∈
        generateStrictPalette [⟨10, 10, 10, 255⟩] 8 ∧
      (⟨1, 12, 12, 12, "#0c0c0c", 0, "#FFFFFF"⟩ : PaletteItem).textColor =
        if 128 ≤ (299 * 12 + 587 * 12 + 114 * 12) / 1000 then "#000000" else "#FFFFFF" :=
  ⟨by decide, c9_contrast_correctness [⟨10, 10, 10, 255⟩] 8
    ⟨1, 12, 12, 12, "#0c0c0c", 0, "#FFFFFF"⟩ (by decide)⟩

/-- Claim C10: the greedy reduction loop terminates — each successful
merge removes exactly one entry, the pair scan returns nothing exactly
when at most one entry remains, any fuel of at least the initial length
gives the loop's fixed point, and on a nonempty histogram the resulting
draft has at most `max maxColors 1` entries. -/
theorem c10_reduction_terminates (hist : List TempColor) (m : Int) :
    (∀ i j : Nat, findClosestPair hist = some (i, j) →
      (mergeAt hist i j).length + 1 = hist.length) ∧
    (findClosestPair hist = none ↔ hist.length ≤ 1) ∧
    (∀ fuel : Nat, hist.length ≤ fuel → reduceLoop fuel hist m = reducePalette hist m) ∧
    (hist ≠ [] → ((reducePalette hist m).length : Int) ≤ max m 1) := by
  refine ⟨?_, ⟨?_, ?_⟩, ?_, ?_⟩
  · intro i j hfp
    have hv : i < j ∧ j < hist.length := findClosestPair_some_valid hist (i, j) hfp
    have hl := mergeAt_length hist i j
    omega
  · exact fun h => findClosestPair_none_length hist h
  · exact fun h => findClosestPair_eq_none hist h
  · exact fun fuel hf => reducePalette_fuel fuel hist m hf
  · exact fun hne => reducePalette_length_le hist m hne

theorem c10_reduction_terminates_witness :
    ((reducePalette [⟨0, 0, 0, 1⟩, ⟨8, 8, 8, 1⟩] 1).length : Int) ≤ max 1 1 :=
  (c10_reduction_terminates [⟨0, 0, 0, 1⟩, ⟨8, 8, 8, 1⟩] 1).2.2.2 (by decide)

example : roundMul4 10 = 12 := by decide
example : roundMul4 255 = 256 := by decide
example : rgbToHex 12 12 12 = "#0c0c0c" := by decide
example : rgbToHex 256 0 64 = "#1000040" := by decide
example : generateStrictPalette [⟨10, 10, 10, 255⟩] 8 =
    [⟨1, 12, 12, 12, "#0c0c0c", 0, "#FFFFFF"⟩] := by decide
example : enforcePixelGridPalette [⟨10, 10, 10, 255⟩] 0 =
    [⟨1, 12, 12, 12, "#0c0c0c", 1, "#FFFFFF"⟩] := by decide
